import Mathlib

/-!
Verification of the scraping/reconciliation core of `rtscrapper.py` (a Python 2
Rotten Tomatoes scraper) against its specification.  The script's data values
are Python 2 dynamic values (`int` or `unicode` text), its records are dicts,
and its failure modes are exceptions; the embedding below mirrors those with an
explicit value type, a structure with an optional field for the key that may be
missing, and `Except`.
-/

/-- Python 2 dynamic values stored in a record's score fields: an `int`, or a
`unicode` text value modelled as its list of characters. -/
inductive PyVal where
  | int (n : Int)
  | str (s : List Char)
  deriving DecidableEq

/-- Python exceptions the scraper's data handling can raise. -/
inductive PyErr where
  | indexError
  | valueError
  | keyError
  | attributeError
  deriving DecidableEq

deriving instance DecidableEq for Except

/-- Lexicographic comparison of Python 2 text values (code-point order; a
strict initial segment of another string sorts before it). -/
def strLt : List Char → List Char → Bool
  | [], [] => false
  | [], _ :: _ => true
  | _ :: _, [] => false
  | a :: as, b :: bs =>
    if a.toNat < b.toNat then true else if b.toNat < a.toNat then false else strLt as bs

/-- The Python 2 `<` comparison on the values the scraper stores: ints compare
numerically, text values lexicographically, and every int compares below every
text value (CPython 2 orders mismatched types by type name, and the name
"int" sorts before "unicode"). -/
def pyLt : PyVal → PyVal → Bool
  | .int a, .int b => a < b
  | .int _, .str _ => true
  | .str _, .int _ => false
  | .str a, .str b => strLt a b

/-- Python `unicode.strip()`: remove leading and trailing whitespace. -/
def pyStrip (s : List Char) : List Char :=
  ((s.dropWhile Char.isWhitespace).reverse.dropWhile Char.isWhitespace).reverse

/-- Numeric value of a list of decimal digit characters. -/
def digitsToNat (s : List Char) : Nat :=
  s.foldl (fun a c => 10 * a + (c.toNat - '0'.toNat)) 0

/-- Python 2 `int(s)` applied to a text value: strip whitespace, allow one
optional sign, then require a nonempty run of decimal digits; any other shape
raises `ValueError`. -/
def pyInt (s : List Char) : Except PyErr Int :=
  let t := pyStrip s
  match t with
  | '+' :: r =>
    if !r.isEmpty && r.all Char.isDigit then .ok (digitsToNat r) else .error .valueError
  | '-' :: r =>
    if !r.isEmpty && r.all Char.isDigit then .ok (-(digitsToNat r : Int)) else .error .valueError
  | _ =>
    if !t.isEmpty && t.all Char.isDigit then .ok (digitsToNat t) else .error .valueError

/-- Lines 35-36 of `rtscrapper.py`: `content["critic_score"][-1]` raises
`IndexError` on an empty string; a string whose last character is `%` has the
rest converted with `int` (which may raise `ValueError`); any other string is
kept unchanged as the score value. -/
def parseCriticScore (s : List Char) : Except PyErr PyVal :=
  match s.getLast? with
  | none => .error .indexError
  | some c => if c = '%' then (pyInt s.dropLast).map PyVal.int else .ok (.str s)

/-- Lines 83-85 of `rtscrapper.py`: `audience_review.find("%")`; when a `%`
occurs, the text before the first `%` is converted with `int` (which may raise
`ValueError`), otherwise the string is kept unchanged. -/
def parseAudienceScore (s : List Char) : Except PyErr PyVal :=
  if s.contains '%' then (pyInt (s.takeWhile (fun c => c ≠ '%'))).map PyVal.int
  else .ok (.str s)

/-- The `content` dict built for each accepted tag in `parse_selector`: keys
`name` and `critic_score` are always set; `audience_review` is present only
when `parse_page` found the audience tag on the detail page. -/
structure Movie where
  name : List Char
  critic_score : PyVal
  audience_review : Option PyVal
  deriving DecidableEq

/-- A markup node matched by the listing selector, reduced to the three pieces
`parse_selector` reads from it: `tag.string` (`None` when the node has no
single text child), `tag["href"]`, and the nearest previous span's string
(`None` when that backward lookup or its `.string` fails; the code calls
`.strip()` on it, raising `AttributeError` in the `None` case). -/
structure Tag where
  string : Option (List Char)
  href : String
  prevSpan : Option (List Char)
  deriving DecidableEq

/-- The fixed site root that `parse_selector` puts before each relative movie
link when fetching the detail page. -/
def HOMEPAGE : String := "http://www.rottentomatoes.com"

/-- Lines 73-88 of `rtscrapper.py`, the detail-page enricher.  A streamed page
is modelled as the list of its chunks, each chunk abstracted to the outcome of
soupifying it and running the audience-score selector on it: `some content`
when the selector matched a tag (carrying that tag's `content` attribute),
`none` otherwise.  The result pairs the parse outcome with the number of
chunks read from the stream: the loop breaks at the first matching chunk, and
a page with no matching chunk yields an absent audience value after reading
the whole stream. -/
def parse_page : List (Option (List Char)) → Except PyErr (Option PyVal) × Nat
  | [] => (.ok none, 0)
  | none :: rest =>
    let r := parse_page rest
    (r.1, r.2 + 1)
  | some content :: _ => ((parseAudienceScore content).map some, 1)

/-- The loop of `parse_selector` (lines 21-39): `lastHREF` holds the href of
the previously accepted tag (initially the empty string) and `movies` the
records accepted so far.  A tag is skipped when it has no string, when its
href equals `lastHREF`, or when its string is already a stored name; an
accepted tag has its critic score parsed from the stripped text of the nearest
previous span, is enriched from its detail page (`stream` maps a URL to that
page's chunk stream), and updates `lastHREF`. -/
def psGo (stream : String → List (Option (List Char))) (lastHREF : String)
    (movies : List Movie) : List Tag → Except PyErr (List Movie)
  | [] => .ok movies
  | tag :: rest =>
    match tag.string with
    | none => psGo stream lastHREF movies rest
    | some s =>
      if tag.href == lastHREF then psGo stream lastHREF movies rest
      else if (movies.map Movie.name).contains s then psGo stream lastHREF movies rest
      else
        match tag.prevSpan with
        | none => .error .attributeError
        | some spanText =>
          match parseCriticScore (pyStrip spanText) with
          | .error e => .error e
          | .ok cs =>
            match (parse_page (stream (HOMEPAGE ++ tag.href))).1 with
            | .error e => .error e
            | .ok av => psGo stream tag.href (movies ++ [⟨s, cs, av⟩]) rest

/-- `parse_selector` (lines 12-40), over the node list the selector matched. -/
def parse_selector (stream : String → List (Option (List Char))) (tags : List Tag) :
    Except PyErr (List Movie) :=
  psGo stream "" [] tags

/-- Lines 59-61 of `parse_homepage`: every record of the secondary ("top box
office") listing is appended exactly when its name is not already among the
accumulated names. -/
def mergeListing (movies top_box : List Movie) : List Movie :=
  top_box.foldl
    (fun acc m => if (acc.map Movie.name).contains m.name then acc else acc ++ [m]) movies

/-- Whether `needle` is an initial segment of `hay` (on character lists). -/
def startsList : List Char → List Char → Bool
  | [], _ => true
  | _ :: _, [] => false
  | a :: as, b :: bs => a == b && startsList as bs

/-- Python substring containment `needle in hay` on text values. -/
def strIn (needle : List Char) : List Char → Bool
  | [] => needle.isEmpty
  | c :: rest => startsList needle (c :: rest) || strIn needle rest

/-- Python dict lookup `x[key]` on a movie record: the `audience_review` key
exists only when enrichment found the audience tag, so looking it up on a
record without it raises `KeyError`; a key the dict never holds also raises
`KeyError`. -/
def getKey (x : Movie) (key : String) : Except PyErr PyVal :=
  if key == "name" then .ok (.str x.name)
  else if key == "critic_score" then .ok x.critic_score
  else if key == "audience_review" then
    match x.audience_review with
    | some v => .ok v
    | none => .error .keyError
  else .error .keyError

/-- Insert `x` into a descending-sorted list, after every element that is not
below `x`: the stable insertion underlying the model of Python's
`list.sort(..., reverse=True)`. -/
def insertD (lt : α → α → Bool) (x : α) : List α → List α
  | [] => [x]
  | y :: ys => if lt y x then x :: y :: ys else y :: insertD lt x ys

/-- Stable descending sort built from `insertD`: elements whose keys compare
equal keep their original relative order, exactly as Python's
`list.sort(reverse=True)` guarantees. -/
def sortD (lt : α → α → Bool) (l : List α) : List α :=
  l.foldl (fun acc x => insertD lt x acc) []

/-- The decoration pass of Python `l.sort(key=lambda k: k[key], ...)`: CPython
computes the key of every element, left to right, before comparing anything,
and an exception raised by the key function propagates. -/
def decorateE (key : String) : List Movie → Except PyErr (List (PyVal × Movie))
  | [] => .ok []
  | m :: ms =>
    match getKey m key with
    | .error e => .error e
    | .ok v =>
      match decorateE key ms with
      | .error e => .error e
      | .ok rest => .ok ((v, m) :: rest)

/-- Python `l.sort(key=lambda k: k[key], reverse=True)`: compute the keys
(`decorateE`), stable-sort descending on them, and drop the decoration. -/
def sortMovies (key : String) (l : List Movie) : Except PyErr (List Movie) :=
  match decorateE key l with
  | .error e => .error e
  | .ok pairs => .ok ((sortD (fun a b => pyLt a.1 b.1) pairs).map (fun p => p.2))

/-- A Python list comprehension `[x for x in l if p(x)]` whose condition can
raise: conditions run left to right and the first exception propagates. -/
def filterE (p : Movie → Except PyErr Bool) : List Movie → Except PyErr (List Movie)
  | [] => .ok []
  | x :: xs =>
    match p x with
    | .error e => .error e
    | .ok b =>
      match filterE p xs with
      | .error e => .error e
      | .ok r => .ok (if b then x :: r else r)

/-- Line 104-105 condition: `type(x["critic_score"]) is unicode`. -/
def criticIsText (x : Movie) : Except PyErr Bool :=
  match getKey x "critic_score" with
  | .error e => .error e
  | .ok v => .ok (match v with | .str _ => true | .int _ => false)

/-- Lines 107-108 condition: `type(x["audience_review"]) is unicode and "want"
in x["audience_review"]`; the lookup raises `KeyError` when the key is absent,
and the containment check is skipped for non-text values. -/
def audienceHasWant (x : Movie) : Except PyErr Bool :=
  match getKey x "audience_review" with
  | .error e => .error e
  | .ok v => .ok (match v with | .str s => strIn "want".toList s | .int _ => false)

/-- Lines 110-111 condition, with the substring "liked". -/
def audienceHasLiked (x : Movie) : Except PyErr Bool :=
  match getKey x "audience_review" with
  | .error e => .error e
  | .ok v => .ok (match v with | .str s => strIn "liked".toList s | .int _ => false)

/-- Lines 103-111: which records `sort_data` moves into `filtered_list` for a
given sort key (an unrecognized key moves nothing). -/
def pickFiltered (movie_list : List Movie) (sort_key : String) : Except PyErr (List Movie) :=
  if sort_key == "critic_score" then filterE criticIsText movie_list
  else if sort_key == "audience_review" then filterE audienceHasWant movie_list
  else if sort_key == "audience_anticipation" then filterE audienceHasLiked movie_list
  else .ok []

/-- Line 112: `movie_list = [x for x in movie_list if x not in filtered_list]`,
Python `in` being equality-based membership. -/
def removeIn (movie_list filtered_list : List Movie) : List Movie :=
  movie_list.filter (fun x => !(filtered_list.contains x))

/-- Lines 114-115: the anticipation sort still compares the `audience_review`
field of each record. -/
def switchKey (sort_key : String) : String :=
  if sort_key == "audience_anticipation" then "audience_review" else sort_key

/-- `sort_data` (lines 96-120): build `filtered_list` from the key-specific
condition, drop from `movie_list` every record equal to a member of
`filtered_list`, switch the anticipation key to `audience_review` for the
actual comparisons, sort both parts descending (the code sorts
`filtered_list` first), and return the remaining records followed by the
filtered ones. -/
def sort_data (movie_list : List Movie) (sort_key : String) : Except PyErr (List Movie) :=
  match pickFiltered movie_list sort_key with
  | .error e => .error e
  | .ok filtered_list =>
    match sortMovies (switchKey sort_key) filtered_list with
    | .error e => .error e
    | .ok fs =>
      match sortMovies (switchKey sort_key) (removeIn movie_list filtered_list) with
      | .error e => .error e
      | .ok ms => .ok (ms ++ fs)

/-- Python slice `s[:k]`: a negative bound counts from the end of the string
and is clamped at 0. -/
def pySliceTo (s : List Char) (k : Int) : List Char :=
  s.take (if k < 0 then ((s.length : Int) + k).toNat else k.toNat)

/-- `shorten` (lines 130-134): keep a name whose length is within the limit,
otherwise truncate and add a three-dot ellipsis. -/
def shorten (name : List Char) (length : Int) : List Char :=
  if (name.length : Int) ≤ length then name else pySliceTo name (length - 3) ++ "...".toList

/-- Modelled from the claim's words, not from the source: a record "having a
valid value of the requested kind" — a numeric critic score for the
critic-score key, a numeric audience score for the audience-score key, and a
textual "want" marker for the anticipation key.  Used only to state the
refutations of the sorting claims. -/
def claimValidOfKind (key : String) (m : Movie) : Bool :=
  if key == "critic_score" then (match m.critic_score with | .int _ => true | .str _ => false)
  else if key == "audience_review" then
    (match m.audience_review with | some (.int _) => true | _ => false)
  else if key == "audience_anticipation" then
    (match m.audience_review with | some (.str s) => strIn "want".toList s | _ => false)
  else false

/-- Pure form of the line 104-105 condition: the record's critic score is a
text value (so it lacks numeric critic data). -/
def criticTextB (x : Movie) : Bool :=
  match x.critic_score with
  | .str _ => true
  | .int _ => false

/-- Pure form of the lines 107-108 condition for records that do carry the
`audience_review` key: a text audience value containing "want". -/
def wantB (x : Movie) : Bool :=
  match x.audience_review with
  | some (.str s) => strIn "want".toList s
  | _ => false

/-- Pure form of the lines 110-111 condition for records that do carry the
`audience_review` key: a text audience value containing "liked". -/
def likedB (x : Movie) : Bool :=
  match x.audience_review with
  | some (.str s) => strIn "liked".toList s
  | _ => false

/-- Total accessor for the audience value, meaningful only on records whose
`audience_review` key is present (the hypothesis under which it is used). -/
def audVal (m : Movie) : PyVal :=
  match m.audience_review with
  | some v => v
  | none => .str []

theorem strLt_nil_right : ∀ a, strLt a [] = false := by
  intro a
  cases a <;> simp [strLt]

theorem strLt_irrefl : ∀ a, strLt a a = false := by
  intro a
  induction a with
  | nil => simp [strLt]
  | cons x xs ih => simp [strLt, ih]

theorem strLt_asymm : ∀ a b, strLt a b = true → strLt b a = false := by
  intro a
  induction a with
  | nil =>
    intro b h
    cases b with
    | nil => simp [strLt]
    | cons y ys => simp [strLt]
  | cons x xs ih =>
    intro b h
    cases b with
    | nil => simp [strLt] at h
    | cons y ys =>
      by_cases h1 : x.toNat < y.toNat
      · simp [strLt, show ¬ y.toNat < x.toNat by omega, h1]
      · by_cases h2 : y.toNat < x.toNat
        · simp [strLt, h1, h2] at h
        · simp only [strLt, if_neg h1, if_neg h2] at h
          simp only [strLt, if_neg h2, if_neg h1]
          exact ih ys h

theorem strLt_trans : ∀ a b c, strLt a b = true → strLt b c = true → strLt a c = true := by
  intro a
  induction a with
  | nil =>
    intro b c h1 h2
    cases c with
    | nil => rw [strLt_nil_right] at h2; cases h2
    | cons z zs => simp [strLt]
  | cons x xs ih =>
    intro b c h1 h2
    cases b with
    | nil => simp [strLt] at h1
    | cons y ys =>
      cases c with
      | nil => rw [strLt_nil_right] at h2; cases h2
      | cons z zs =>
        by_cases hxy : x.toNat < y.toNat <;> by_cases hyz : y.toNat < z.toNat
        · simp [strLt, show x.toNat < z.toNat by omega]
        · by_cases hzy : z.toNat < y.toNat
          · simp [strLt, hyz, hzy] at h2
          · simp [strLt, show x.toNat < z.toNat by omega]
        · by_cases hyx : y.toNat < x.toNat
          · simp [strLt, hxy, hyx] at h1
          · simp [strLt, show x.toNat < z.toNat by omega]
        · by_cases hyx : y.toNat < x.toNat
          · simp [strLt, hxy, hyx] at h1
          · by_cases hzy : z.toNat < y.toNat
            · simp [strLt, hyz, hzy] at h2
            · simp only [strLt, if_neg hxy, if_neg hyx] at h1
              simp only [strLt, if_neg hyz, if_neg hzy] at h2
              simp only [strLt, if_neg (show ¬ x.toNat < z.toNat by omega),
                if_neg (show ¬ z.toNat < x.toNat by omega)]
              exact ih ys zs h1 h2

theorem strLt_eq_of_incomp : ∀ a b, strLt a b = false → strLt b a = false → a = b := by
  intro a
  induction a with
  | nil =>
    intro b h1 _
    cases b with
    | nil => rfl
    | cons y ys => simp [strLt] at h1
  | cons x xs ih =>
    intro b h1 h2
    cases b with
    | nil => simp [strLt] at h2
    | cons y ys =>
      by_cases hxy : x.toNat < y.toNat
      · simp [strLt, hxy] at h1
      · by_cases hyx : y.toNat < x.toNat
        · simp [strLt, hyx] at h2
        · have hchar : x = y := by
            have h : x.toNat = y.toNat := by omega
            simpa using congrArg Char.ofNat h
          simp only [strLt, if_neg hxy, if_neg hyx] at h1
          simp only [strLt, if_neg hyx, if_neg hxy] at h2
          rw [hchar, ih ys h1 h2]

theorem pyLt_irrefl : ∀ a, pyLt a a = false := by
  intro a
  cases a with
  | int n => simp [pyLt]
  | str s => simp [pyLt, strLt_irrefl]

theorem pyLt_asymm : ∀ a b, pyLt a b = true → pyLt b a = false := by
  intro a b
  cases a with
  | int m =>
    cases b with
    | int n => intro h; simp [pyLt] at h ⊢; omega
    | str s => intro _; simp [pyLt]
  | str s =>
    cases b with
    | int n => intro h; simp [pyLt] at h
    | str t => intro h; simp only [pyLt] at h ⊢; exact strLt_asymm s t h

theorem pyLt_trans : ∀ a b c, pyLt a b = true → pyLt b c = true → pyLt a c = true := by
  intro a b c h1 h2
  cases a with
  | int m =>
    cases c with
    | int n =>
      cases b with
      | int k => simp [pyLt] at h1 h2 ⊢; omega
      | str s => simp [pyLt] at h2
    | str s => simp [pyLt]
  | str s =>
    cases b with
    | int k => simp [pyLt] at h1
    | str t =>
      cases c with
      | int n => simp [pyLt] at h2
      | str u =>
        simp only [pyLt] at h1 h2 ⊢
        exact strLt_trans s t u h1 h2

theorem pyLt_eq_of_incomp : ∀ a b, pyLt a b = false → pyLt b a = false → a = b := by
  intro a b h1 h2
  cases a with
  | int m =>
    cases b with
    | int n =>
      simp [pyLt] at h1 h2
      have h : m = n := by omega
      rw [h]
    | str s => simp [pyLt] at h1
  | str s =>
    cases b with
    | int n => simp [pyLt] at h2
    | str t =>
      simp only [pyLt] at h1 h2
      rw [strLt_eq_of_incomp _ _ h1 h2]

theorem insertD_eq (lt : α → α → Bool) (x : α) :
    ∀ l, insertD lt x l =
      l.takeWhile (fun y => !(lt y x)) ++ x :: l.dropWhile (fun y => !(lt y x)) := by
  intro l
  induction l with
  | nil => simp [insertD]
  | cons y ys ih =>
    by_cases h : lt y x = true
    · simp [insertD, h]
    · simp [insertD, h, ih]

theorem insertD_perm (lt : α → α → Bool) (x : α) :
    ∀ l, List.Perm (insertD lt x l) (x :: l) := by
  intro l
  induction l with
  | nil => exact List.Perm.refl _
  | cons y ys ih =>
    by_cases h : lt y x = true
    · simp [insertD, h]
    · simp only [insertD, h, Bool.false_eq_true, if_false]
      exact (ih.cons y).trans (List.Perm.swap x y ys)

theorem foldl_insertD_perm (lt : α → α → Bool) :
    ∀ (l acc : List α),
      List.Perm (l.foldl (fun acc x => insertD lt x acc) acc) (acc ++ l) := by
  intro l
  induction l with
  | nil => intro acc; simp
  | cons x xs ih =>
    intro acc
    simp only [List.foldl_cons]
    refine (ih (insertD lt x acc)).trans ?_
    refine (List.Perm.append_right xs (insertD_perm lt x acc)).trans ?_
    exact List.perm_middle.symm

theorem sortD_perm (lt : α → α → Bool) (l : List α) : List.Perm (sortD lt l) l := by
  simpa [sortD] using foldl_insertD_perm lt l []

theorem insertD_pairwise (lt : α → α → Bool)
    (hasymm : ∀ a b, lt a b = true → lt b a = false)
    (htrans : ∀ a b c, lt a b = true → lt b c = true → lt a c = true) (x : α) :
    ∀ l, List.Pairwise (fun a b => lt a b = false) l →
      List.Pairwise (fun a b => lt a b = false) (insertD lt x l) := by
  intro l
  induction l with
  | nil => intro _; simp [insertD]
  | cons y ys ih =>
    intro hp
    rcases List.pairwise_cons.mp hp with ⟨hy, hys⟩
    by_cases h : lt y x = true
    · simp only [insertD, h, if_true]
      refine List.pairwise_cons.mpr ⟨?_, hp⟩
      intro z hz
      rcases List.mem_cons.mp hz with rfl | hz2
      · exact hasymm _ _ h
      · cases hxz : lt x z with
        | false => rfl
        | true =>
          have := htrans y x z h hxz
          rw [hy z hz2] at this
          cases this
    · simp only [insertD, h, Bool.false_eq_true, if_false]
      refine List.pairwise_cons.mpr ⟨?_, ih hys⟩
      intro z hz
      rcases List.mem_cons.mp ((insertD_perm lt x ys).mem_iff.mp hz) with rfl | hz2
      · simpa using h
      · exact hy z hz2

theorem foldl_insertD_pairwise (lt : α → α → Bool)
    (hasymm : ∀ a b, lt a b = true → lt b a = false)
    (htrans : ∀ a b c, lt a b = true → lt b c = true → lt a c = true) :
    ∀ (l acc : List α), List.Pairwise (fun a b => lt a b = false) acc →
      List.Pairwise (fun a b => lt a b = false)
        (l.foldl (fun acc x => insertD lt x acc) acc) := by
  intro l
  induction l with
  | nil => intro acc h; simpa using h
  | cons x xs ih =>
    intro acc h
    simp only [List.foldl_cons]
    exact ih _ (insertD_pairwise lt hasymm htrans x acc h)

theorem sortD_pairwise (lt : α → α → Bool)
    (hasymm : ∀ a b, lt a b = true → lt b a = false)
    (htrans : ∀ a b c, lt a b = true → lt b c = true → lt a c = true) (l : List α) :
    List.Pairwise (fun a b => lt a b = false) (sortD lt l) := by
  simpa [sortD] using foldl_insertD_pairwise lt hasymm htrans l [] (by simp)

theorem dropWhile_head_false (p : α → Bool) :
    ∀ (l : List α) (h : α) (t : List α), l.dropWhile p = h :: t → p h = false := by
  intro l
  induction l with
  | nil => intro h t hh; simp [List.dropWhile] at hh
  | cons a l ih =>
    intro h t hh
    by_cases hp : p a = true
    · rw [List.dropWhile_cons_of_pos hp] at hh
      exact ih _ _ hh
    · rw [List.dropWhile_cons_of_neg hp] at hh
      cases hh
      simpa using hp

theorem filter_insertD (lt : α → α → Bool) (q : α → Bool)
    (hincomp : ∀ a b c, lt a b = true → lt b c = false → lt c b = false → lt a c = true)
    (hq : ∀ a b, q a = true → q b = true → lt a b = false)
    (x : α) (l : List α) (hp : List.Pairwise (fun a b => lt a b = false) l) :
    (insertD lt x l).filter q = l.filter q ++ (if q x then [x] else []) := by
  have hl : l.filter q =
      (l.takeWhile (fun y => !(lt y x))).filter q ++
        (l.dropWhile (fun y => !(lt y x))).filter q := by
    conv_lhs => rw [← List.takeWhile_append_dropWhile (fun y => !(lt y x)) l]
    rw [List.filter_append]
  rw [insertD_eq, List.filter_append, List.filter_cons]
  by_cases hx : q x = true
  · have hd : (l.dropWhile (fun y => !(lt y x))).filter q = [] := by
      rw [List.filter_eq_nil_iff]
      intro z hz
      cases hdrop : l.dropWhile (fun y => !(lt y x)) with
      | nil => rw [hdrop] at hz; cases hz
      | cons h0 d2 =>
        rw [hdrop] at hz
        have hh0x : lt h0 x = true := by
          simpa using dropWhile_head_false _ l h0 d2 hdrop
        have hsorted : List.Pairwise (fun a b => lt a b = false) (h0 :: d2) := by
          refine List.Pairwise.sublist ?_ hp
          rw [← List.takeWhile_append_dropWhile (fun y => !(lt y x)) l, hdrop]
          exact List.sublist_append_right _ _
        intro hqz
        rcases List.mem_cons.mp hz with rfl | hz2
        · rw [hq z x hqz hx] at hh0x
          cases hh0x
        · have h1 : lt h0 z = false := (List.pairwise_cons.mp hsorted).1 z hz2
          have := hincomp h0 x z hh0x (hq x z hx hqz) (hq z x hqz hx)
          rw [h1] at this
          cases this
    rw [hl, hd]
    simp [hx]
  · have hx2 : q x = false := by cases hqx : q x; rfl; exact absurd hqx hx
    rw [hl]
    simp [hx2]

theorem foldl_insertD_filter (lt : α → α → Bool) (q : α → Bool)
    (hasymm : ∀ a b, lt a b = true → lt b a = false)
    (htrans : ∀ a b c, lt a b = true → lt b c = true → lt a c = true)
    (hincomp : ∀ a b c, lt a b = true → lt b c = false → lt c b = false → lt a c = true)
    (hq : ∀ a b, q a = true → q b = true → lt a b = false) :
    ∀ (l acc : List α), List.Pairwise (fun a b => lt a b = false) acc →
      (l.foldl (fun acc x => insertD lt x acc) acc).filter q =
        acc.filter q ++ l.filter q := by
  intro l
  induction l with
  | nil => intro acc _; simp
  | cons x xs ih =>
    intro acc hacc
    simp only [List.foldl_cons]
    rw [ih (insertD lt x acc) (insertD_pairwise lt hasymm htrans x acc hacc),
      filter_insertD lt q hincomp hq x acc hacc, List.filter_cons]
    by_cases hx : q x = true
    · simp [hx]
    · have hx2 : q x = false := by cases hqx : q x; rfl; exact absurd hqx hx
      simp [hx2]

theorem sortD_filter (lt : α → α → Bool) (q : α → Bool)
    (hasymm : ∀ a b, lt a b = true → lt b a = false)
    (htrans : ∀ a b c, lt a b = true → lt b c = true → lt a c = true)
    (hincomp : ∀ a b c, lt a b = true → lt b c = false → lt c b = false → lt a c = true)
    (hq : ∀ a b, q a = true → q b = true → lt a b = false) (l : List α) :
    (sortD lt l).filter q = l.filter q := by
  simpa [sortD] using
    foldl_insertD_filter lt q hasymm htrans hincomp hq l [] (by simp)

theorem decorateE_ok (key : String) (kf : Movie → PyVal) :
    ∀ l : List Movie, (∀ m ∈ l, getKey m key = .ok (kf m)) →
      decorateE key l = .ok (l.map (fun m => (kf m, m))) := by
  intro l
  induction l with
  | nil => intro _; rfl
  | cons m ms ih =>
    intro h
    simp only [decorateE, h m (by simp), ih (fun x hx => h x (by simp [hx])), List.map_cons]

theorem decorateE_snd (key : String) :
    ∀ (l : List Movie) (pairs : List (PyVal × Movie)),
      decorateE key l = .ok pairs → pairs.map (fun p => p.2) = l := by
  intro l
  induction l with
  | nil =>
    intro pairs h
    simp only [decorateE] at h
    cases h
    rfl
  | cons m ms ih =>
    intro pairs h
    simp only [decorateE] at h
    cases hk : getKey m key with
    | error e => rw [hk] at h; cases h
    | ok v =>
      rw [hk] at h
      cases hms : decorateE key ms with
      | error e => rw [hms] at h; cases h
      | ok ps =>
        rw [hms] at h
        cases h
        simp only [List.map_cons]
        rw [ih ps hms]

theorem sortMovies_perm (key : String) (l r : List Movie)
    (h : sortMovies key l = .ok r) : List.Perm r l := by
  unfold sortMovies at h
  cases hd : decorateE key l with
  | error e => rw [hd] at h; cases h
  | ok pairs =>
    rw [hd] at h
    cases h
    have h2 :=
      List.Perm.map (fun p : PyVal × Movie => p.2)
        (sortD_perm (fun a b : PyVal × Movie => pyLt a.1 b.1) pairs)
    rw [decorateE_snd key l pairs hd] at h2
    exact h2

theorem sortMovies_ok (key : String) (kf : Movie → PyVal) (l : List Movie)
    (h : ∀ m ∈ l, getKey m key = .ok (kf m)) :
    sortMovies key l =
      .ok ((sortD (fun a b : PyVal × Movie => pyLt a.1 b.1)
        (l.map (fun m => (kf m, m)))).map (fun p => p.2)) := by
  unfold sortMovies
  rw [decorateE_ok key kf l h]

theorem sortD_decorate_mem (kf : Movie → PyVal) (l : List Movie) :
    ∀ p ∈ sortD (fun a b : PyVal × Movie => pyLt a.1 b.1)
        (l.map (fun m => (kf m, m))), p.1 = kf p.2 := by
  intro p hp
  have hmem : p ∈ l.map (fun m => (kf m, m)) :=
    (sortD_perm (fun a b : PyVal × Movie => pyLt a.1 b.1) _).mem_iff.mp hp
  rcases List.mem_map.mp hmem with ⟨m, _, rfl⟩
  rfl

theorem insertD_map_decorate (kf : Movie → PyVal) (m : Movie) :
    ∀ acc : List (PyVal × Movie), (∀ p ∈ acc, p.1 = kf p.2) →
      (insertD (fun a b : PyVal × Movie => pyLt a.1 b.1) (kf m, m) acc).map (fun p => p.2) =
        insertD (fun a b => pyLt (kf a) (kf b)) m (acc.map (fun p => p.2)) := by
  intro acc
  induction acc with
  | nil => intro _; rfl
  | cons p ps ih =>
    intro hdec
    have hp1 : p.1 = kf p.2 := hdec p (by simp)
    have ihps := ih (fun x hx => hdec x (by simp [hx]))
    by_cases hcmp : pyLt p.1 (kf m) = true
    · have hcmp2 : pyLt (kf p.2) (kf m) = true := by rw [← hp1]; exact hcmp
      simp [insertD, hcmp, hcmp2]
    · have hcmp0 : pyLt p.1 (kf m) = false := by
        cases hx : pyLt p.1 (kf m); rfl; exact absurd hx hcmp
      have hcmp2 : pyLt (kf p.2) (kf m) = false := by rw [← hp1]; exact hcmp0
      simp [insertD, hcmp0, hcmp2, ihps]

theorem sortD_map_decorate (kf : Movie → PyVal) (l : List Movie) :
    (sortD (fun a b : PyVal × Movie => pyLt a.1 b.1)
        (l.map (fun m => (kf m, m)))).map (fun p => p.2) =
      sortD (fun a b => pyLt (kf a) (kf b)) l := by
  suffices h : ∀ (l : List Movie) (acc : List (PyVal × Movie)),
      (∀ p ∈ acc, p.1 = kf p.2) →
      ((l.map (fun m => (kf m, m))).foldl
          (fun acc x => insertD (fun a b : PyVal × Movie => pyLt a.1 b.1) x acc) acc).map
        (fun p => p.2) =
        l.foldl (fun acc x => insertD (fun a b => pyLt (kf a) (kf b)) x acc)
          (acc.map (fun p => p.2)) by
    simpa [sortD] using h l [] (by simp)
  intro l
  induction l with
  | nil => intro acc _; simp
  | cons m ms ih =>
    intro acc hdec
    simp only [List.map_cons, List.foldl_cons]
    have hdec2 : ∀ p ∈ insertD (fun a b : PyVal × Movie => pyLt a.1 b.1) (kf m, m) acc,
        p.1 = kf p.2 := by
      intro p hp
      rcases List.mem_cons.mp
          ((insertD_perm (fun a b : PyVal × Movie => pyLt a.1 b.1) (kf m, m) acc).mem_iff.mp hp)
        with rfl | hp2
      · rfl
      · exact hdec p hp2
    rw [ih _ hdec2, insertD_map_decorate kf m acc hdec]

theorem sortMovies_ok_movie (key : String) (kf : Movie → PyVal) (l : List Movie)
    (h : ∀ m ∈ l, getKey m key = .ok (kf m)) :
    sortMovies key l = .ok (sortD (fun a b => pyLt (kf a) (kf b)) l) := by
  rw [sortMovies_ok key kf l h, sortD_map_decorate kf l]

theorem sortMovies_sorted (key : String) (kf : Movie → PyVal) (l r : List Movie)
    (h : ∀ m ∈ l, getKey m key = .ok (kf m)) (hr : sortMovies key l = .ok r) :
    List.Pairwise (fun a b => pyLt (kf a) (kf b) = false) r := by
  rw [sortMovies_ok_movie key kf l h] at hr
  cases hr
  exact sortD_pairwise (fun a b => pyLt (kf a) (kf b))
    (fun a b hab => pyLt_asymm _ _ hab) (fun a b c h1 h2 => pyLt_trans _ _ _ h1 h2) l

theorem sortMovies_stable (key : String) (kf : Movie → PyVal) (l r : List Movie)
    (h : ∀ m ∈ l, getKey m key = .ok (kf m)) (hr : sortMovies key l = .ok r) (v : PyVal) :
    r.filter (fun m => !pyLt (kf m) v && !pyLt v (kf m)) =
      l.filter (fun m => !pyLt (kf m) v && !pyLt v (kf m)) := by
  rw [sortMovies_ok_movie key kf l h] at hr
  cases hr
  refine sortD_filter (fun a b => pyLt (kf a) (kf b))
    (fun m => !pyLt (kf m) v && !pyLt v (kf m))
    (fun a b hab => pyLt_asymm _ _ hab) (fun a b c h1 h2 => pyLt_trans _ _ _ h1 h2)
    ?_ ?_ l
  · intro a b c h1 h2 h3
    show pyLt (kf a) (kf c) = true
    rw [← pyLt_eq_of_incomp (kf b) (kf c) h2 h3]
    exact h1
  · intro a b ha hb
    show pyLt (kf a) (kf b) = false
    have ha2 := ha
    have hb2 := hb
    simp only [Bool.and_eq_true, Bool.not_eq_true'] at ha2 hb2
    rw [pyLt_eq_of_incomp _ _ ha2.1 ha2.2, pyLt_eq_of_incomp _ _ hb2.1 hb2.2]
    exact pyLt_irrefl v

theorem filterE_ok (p : Movie → Except PyErr Bool) (pb : Movie → Bool) :
    ∀ l : List Movie, (∀ x ∈ l, p x = .ok (pb x)) →
      filterE p l = .ok (l.filter pb) := by
  intro l
  induction l with
  | nil => intro _; rfl
  | cons x xs ih =>
    intro h
    simp only [filterE, h x (by simp), ih (fun y hy => h y (by simp [hy])), List.filter_cons]

theorem filterE_sublist (p : Movie → Except PyErr Bool) :
    ∀ (l f : List Movie), filterE p l = .ok f → f.Sublist l := by
  intro l
  induction l with
  | nil =>
    intro f h
    simp only [filterE] at h
    cases h
    exact List.nil_sublist _
  | cons x xs ih =>
    intro f h
    simp only [filterE] at h
    cases hp : p x with
    | error e => rw [hp] at h; cases h
    | ok b =>
      rw [hp] at h
      cases hxs : filterE p xs with
      | error e => rw [hxs] at h; cases h
      | ok r =>
        rw [hxs] at h
        cases h
        cases b
        · exact (ih r hxs).cons x
        · exact (ih r hxs).cons₂ x

theorem removeIn_filter (pb : Movie → Bool) (l : List Movie) :
    removeIn l (l.filter pb) = l.filter (fun x => !(pb x)) := by
  apply List.filter_congr
  intro x hx
  cases hpb : pb x
  · simp [List.mem_filter, hpb]
  · simp [List.mem_filter, hx, hpb]

theorem removeIn_append_perm (l f : List Movie) (hnd : l.Nodup) (hsub : f.Sublist l) :
    List.Perm (removeIn l f ++ f) l := by
  have hfnd : f.Nodup := hsub.nodup hnd
  refine (List.perm_ext_iff_of_nodup ?_ hnd).mpr ?_
  · refine List.nodup_append.mpr ⟨hnd.filter _, hfnd, ?_⟩
    intro a ha haf
    have h2 := (List.mem_filter.mp ha).2
    simp only [Bool.not_eq_true'] at h2
    rw [(by simp [haf] : (f.contains a) = true)] at h2
    cases h2
  · intro a
    constructor
    · intro ha
      rcases List.mem_append.mp ha with h1 | h2
      · exact (List.mem_filter.mp h1).1
      · exact hsub.subset h2
    · intro ha
      by_cases haf : a ∈ f
      · exact List.mem_append.mpr (Or.inr haf)
      · refine List.mem_append.mpr (Or.inl (List.mem_filter.mpr ⟨ha, ?_⟩))
        simp [haf]

theorem pickFiltered_sublist (l : List Movie) (key : String) (f : List Movie)
    (h : pickFiltered l key = .ok f) : f.Sublist l := by
  unfold pickFiltered at h
  split at h
  · exact filterE_sublist _ l f h
  · split at h
    · exact filterE_sublist _ l f h
    · split at h
      · exact filterE_sublist _ l f h
      · cases h
        exact List.nil_sublist _

theorem sort_data_perm (l : List Movie) (key : String) (r : List Movie)
    (hnd : l.Nodup) (h : sort_data l key = .ok r) : List.Perm r l := by
  unfold sort_data at h
  cases hf : pickFiltered l key with
  | error e => rw [hf] at h; cases h
  | ok f =>
    simp only [hf] at h
    cases hfs : sortMovies (switchKey key) f with
    | error e => rw [hfs] at h; cases h
    | ok fs =>
      simp only [hfs] at h
      cases hms : sortMovies (switchKey key) (removeIn l f) with
      | error e => rw [hms] at h; cases h
      | ok ms =>
        simp only [hms] at h
        cases h
        have hsub := pickFiltered_sublist l key f hf
        refine List.Perm.trans
          (List.Perm.append (sortMovies_perm _ _ _ hms) (sortMovies_perm _ _ _ hfs)) ?_
        exact removeIn_append_perm l f hnd hsub

theorem psGo_names (stream : String → List (Option (List Char))) :
    ∀ (tags : List Tag) (lastHREF : String) (movies ms : List Movie),
      psGo stream lastHREF movies tags = .ok ms →
      (movies.map Movie.name).Nodup →
      (ms.map Movie.name).Nodup ∧
        ∃ t, ms.map Movie.name = movies.map Movie.name ++ t ∧
          t.Sublist (tags.filterMap Tag.string) := by
  intro tags
  induction tags with
  | nil =>
    intro lastHREF movies ms h hnd
    simp only [psGo] at h
    cases h
    exact ⟨hnd, [], by simp, List.nil_sublist _⟩
  | cons tag rest ih =>
    intro lastHREF movies ms h hnd
    simp only [psGo] at h
    cases hstr : tag.string with
    | none =>
      simp only [hstr] at h
      rcases ih lastHREF movies ms h hnd with ⟨h1, t, h2, h3⟩
      refine ⟨h1, t, h2, ?_⟩
      rw [List.filterMap_cons, hstr]
      exact h3
    | some s =>
      simp only [hstr] at h
      by_cases hb : (tag.href == lastHREF) = true
      · rw [if_pos hb] at h
        rcases ih lastHREF movies ms h hnd with ⟨h1, t, h2, h3⟩
        refine ⟨h1, t, h2, ?_⟩
        rw [List.filterMap_cons, hstr]
        exact h3.cons s
      · rw [if_neg hb] at h
        by_cases hc : ((movies.map Movie.name).contains s) = true
        · rw [if_pos hc] at h
          rcases ih lastHREF movies ms h hnd with ⟨h1, t, h2, h3⟩
          refine ⟨h1, t, h2, ?_⟩
          rw [List.filterMap_cons, hstr]
          exact h3.cons s
        · rw [if_neg hc] at h
          cases hspan : tag.prevSpan with
          | none => rw [hspan] at h; cases h
          | some spanText =>
            simp only [hspan] at h
            cases hcs : parseCriticScore (pyStrip spanText) with
            | error e => rw [hcs] at h; cases h
            | ok cs =>
              simp only [hcs] at h
              cases hav : (parse_page (stream (HOMEPAGE ++ tag.href))).1 with
              | error e => rw [hav] at h; cases h
              | ok av =>
                simp only [hav] at h
                have hnd2 : ((movies ++ [(⟨s, cs, av⟩ : Movie)]).map Movie.name).Nodup := by
                  rw [List.map_append]
                  refine List.nodup_append.mpr ⟨hnd, List.nodup_singleton _, ?_⟩
                  intro a ha ha2
                  have has : a = s := by simpa using ha2
                  rw [has] at ha
                  exact hc (List.elem_iff.mpr ha)
                rcases ih tag.href _ ms h hnd2 with ⟨h1, t, h2, h3⟩
                refine ⟨h1, s :: t, ?_, ?_⟩
                · rw [h2, List.map_append]
                  simp
                · rw [List.filterMap_cons, hstr]
                  exact h3.cons₂ s

theorem psGo_replicate (stream : String → List (Option (List Char))) (s : List Char)
    (h : String) (sp : Option (List Char)) (movies : List Movie) :
    ∀ n, psGo stream h movies (List.replicate n ⟨some s, h, sp⟩) = .ok movies := by
  intro n
  induction n with
  | zero => rfl
  | succ k ih =>
    rw [List.replicate_succ]
    simp [psGo, ih]

theorem parse_selector_replicate (stream : String → List (Option (List Char)))
    (s : List Char) (h : String) (sp : List Char) (cs : PyVal) (av : Option PyVal) (n : Nat)
    (hne : h ≠ "")
    (hcs : parseCriticScore (pyStrip sp) = .ok cs)
    (hav : (parse_page (stream (HOMEPAGE ++ h))).1 = .ok av) :
    parse_selector stream (List.replicate (n + 1) ⟨some s, h, some sp⟩) =
      .ok [⟨s, cs, av⟩] := by
  have hne2 : (h == "") = false := beq_eq_false_iff_ne.mpr hne
  unfold parse_selector
  rw [List.replicate_succ]
  simp only [psGo, hne2, Bool.false_eq_true, if_false, List.map_nil, List.contains,
    List.elem_nil, hcs, hav]
  exact psGo_replicate stream s h (some sp) [⟨s, cs, av⟩] n

theorem contains_eq_false_iff {α : Type} [BEq α] [LawfulBEq α] (l : List α) (a : α) :
    l.contains a = false ↔ a ∉ l := by
  constructor
  · intro h hm
    have h2 : l.elem a = true := List.elem_iff.mpr hm
    rw [show l.contains a = l.elem a from rfl, h2] at h
    cases h
  · intro h
    cases hx : l.contains a
    · rfl
    · exact absurd (List.elem_iff.mp hx) h

theorem contains_append_singleton {α : Type} [BEq α] [LawfulBEq α] (l : List α) (a b : α)
    (hne : a ≠ b) : ((l ++ [b]).contains a) = (l.contains a) := by
  cases hx : l.contains a
  · refine (contains_eq_false_iff _ _).mpr ?_
    intro hm
    rcases List.mem_append.mp hm with h1 | h2
    · exact (contains_eq_false_iff _ _).mp hx h1
    · rw [List.mem_singleton] at h2
      exact hne h2
  · exact List.elem_iff.mpr (List.mem_append.mpr (Or.inl (List.elem_iff.mp hx)))

theorem mergeListing_eq (p : List Movie) :
    ∀ s : List Movie, (s.map Movie.name).Nodup →
      mergeListing p s = p ++ s.filter (fun m => !((p.map Movie.name).contains m.name)) := by
  suffices hgen : ∀ (s : List Movie) (p : List Movie), (s.map Movie.name).Nodup →
      mergeListing p s = p ++ s.filter (fun m => !((p.map Movie.name).contains m.name)) by
    intro s hs
    exact hgen s p hs
  intro s
  induction s with
  | nil => intro p _; simp [mergeListing]
  | cons m ms ih =>
    intro p hs
    rw [List.map_cons] at hs
    rcases List.nodup_cons.mp hs with ⟨hnm, hms⟩
    rw [show mergeListing p (m :: ms) =
      mergeListing (if ((p.map Movie.name).contains m.name) then p else p ++ [m]) ms from rfl]
    by_cases hc : ((p.map Movie.name).contains m.name) = true
    · rw [if_pos hc, ih p hms, List.filter_cons]
      have hcc : ¬((!((p.map Movie.name).contains m.name)) = true) := by rw [hc]; simp
      rw [if_neg hcc]
    · have hc0 : ((p.map Movie.name).contains m.name) = false := by
        cases hx : (p.map Movie.name).contains m.name
        · rfl
        · exact absurd hx hc
      rw [if_neg hc, ih (p ++ [m]) hms, List.filter_cons]
      have hcong : ms.filter (fun x => !(((p ++ [m]).map Movie.name).contains x.name)) =
          ms.filter (fun x => !((p.map Movie.name).contains x.name)) := by
        apply List.filter_congr
        intro x hx
        have hxm : x.name ≠ m.name := by
          intro he
          exact hnm (List.mem_map.mpr ⟨x, hx, he⟩)
        rw [List.map_append, List.map_cons, List.map_nil,
          contains_append_singleton _ _ _ hxm]
      rw [hcong]
      have hcc : (!((p.map Movie.name).contains m.name)) = true := by rw [hc0]; rfl
      rw [if_pos hcc, List.append_assoc]
      rfl

theorem filter_name_length (t : List Char) :
    ∀ p : List Movie, (p.map Movie.name).Nodup → t ∈ p.map Movie.name →
      (p.filter (fun x => x.name == t)).length = 1 := by
  intro p
  induction p with
  | nil => intro _ ht; simp at ht
  | cons m ps ih =>
    intro hp ht
    rw [List.map_cons] at hp ht
    rcases List.nodup_cons.mp hp with ⟨hnm, hnd⟩
    rw [List.filter_cons]
    by_cases he : m.name = t
    · have hfe : ps.filter (fun x => x.name == t) = [] := by
        rw [List.filter_eq_nil_iff]
        intro a ha hc
        have : a.name = t := by simpa using hc
        exact hnm (List.mem_map.mpr ⟨a, ha, by rw [this, he]⟩)
      have hcond : (m.name == t) = true := by simp [he]
      simp [hcond, hfe]
    · rcases List.mem_cons.mp ht with h1 | h2
      · exact absurd h1.symm he
      · have hcond : (m.name == t) = false := by simp [he]
        simp only [hcond, Bool.false_eq_true, if_false]
        exact ih hnd h2

theorem getKey_critic (m : Movie) : getKey m "critic_score" = .ok m.critic_score := by
  unfold getKey
  rw [if_neg (by decide), if_pos (by decide)]

theorem getKey_audience_some (m : Movie) (hm : m.audience_review ≠ none) :
    getKey m "audience_review" = .ok (audVal m) := by
  unfold getKey
  rw [if_neg (by decide), if_neg (by decide), if_pos (by decide)]
  cases ha : m.audience_review with
  | none => exact absurd ha hm
  | some v => simp [audVal, ha]

theorem criticIsText_ok (x : Movie) : criticIsText x = .ok (criticTextB x) := by
  unfold criticIsText criticTextB
  rw [getKey_critic]

theorem audienceHasWant_ok (x : Movie) (hx : x.audience_review ≠ none) :
    audienceHasWant x = .ok (wantB x) := by
  unfold audienceHasWant wantB
  rw [getKey_audience_some x hx]
  cases ha : x.audience_review with
  | none => exact absurd ha hx
  | some v => cases v <;> simp [audVal, ha]

theorem audienceHasLiked_ok (x : Movie) (hx : x.audience_review ≠ none) :
    audienceHasLiked x = .ok (likedB x) := by
  unfold audienceHasLiked likedB
  rw [getKey_audience_some x hx]
  cases ha : x.audience_review with
  | none => exact absurd ha hx
  | some v => cases v <;> simp [audVal, ha]

theorem pickFiltered_critic (l : List Movie) :
    pickFiltered l "critic_score" = filterE criticIsText l := by
  unfold pickFiltered
  rw [if_pos (by decide)]

theorem pickFiltered_audience (l : List Movie) :
    pickFiltered l "audience_review" = filterE audienceHasWant l := by
  unfold pickFiltered
  rw [if_neg (by decide), if_pos (by decide)]

theorem pickFiltered_anticipation (l : List Movie) :
    pickFiltered l "audience_anticipation" = filterE audienceHasLiked l := by
  unfold pickFiltered
  rw [if_neg (by decide), if_neg (by decide), if_pos (by decide)]

theorem switchKey_critic : switchKey "critic_score" = "critic_score" := by
  unfold switchKey
  rw [if_neg (by decide)]

theorem switchKey_audience : switchKey "audience_review" = "audience_review" := by
  unfold switchKey
  rw [if_neg (by decide)]

theorem switchKey_anticipation : switchKey "audience_anticipation" = "audience_review" := by
  unfold switchKey
  rw [if_pos (by decide)]

theorem sort_data_critic (l : List Movie) :
    sort_data l "critic_score" =
      .ok (sortD (fun a b => pyLt a.critic_score b.critic_score)
            (l.filter (fun x => !(criticTextB x))) ++
          sortD (fun a b => pyLt a.critic_score b.critic_score) (l.filter criticTextB)) := by
  have hf : pickFiltered l "critic_score" = .ok (l.filter criticTextB) := by
    rw [pickFiltered_critic]
    exact filterE_ok _ _ l (fun x _ => criticIsText_ok x)
  have hfs : sortMovies (switchKey "critic_score") (l.filter criticTextB) =
      .ok (sortD (fun a b => pyLt a.critic_score b.critic_score) (l.filter criticTextB)) := by
    rw [switchKey_critic]
    exact sortMovies_ok_movie _ Movie.critic_score _ (fun m _ => getKey_critic m)
  have hms : sortMovies (switchKey "critic_score") (removeIn l (l.filter criticTextB)) =
      .ok (sortD (fun a b => pyLt a.critic_score b.critic_score)
        (l.filter (fun x => !(criticTextB x)))) := by
    rw [switchKey_critic, removeIn_filter]
    exact sortMovies_ok_movie _ Movie.critic_score _ (fun m _ => getKey_critic m)
  unfold sort_data
  simp only [hf, hfs, hms]

theorem sort_data_audience (l : List Movie) (hsome : ∀ m ∈ l, m.audience_review ≠ none) :
    sort_data l "audience_review" =
      .ok (sortD (fun a b => pyLt (audVal a) (audVal b)) (l.filter (fun x => !(wantB x))) ++
        sortD (fun a b => pyLt (audVal a) (audVal b)) (l.filter wantB)) := by
  have hf : pickFiltered l "audience_review" = .ok (l.filter wantB) := by
    rw [pickFiltered_audience]
    exact filterE_ok _ _ l (fun x hx => audienceHasWant_ok x (hsome x hx))
  have hfs : sortMovies (switchKey "audience_review") (l.filter wantB) =
      .ok (sortD (fun a b => pyLt (audVal a) (audVal b)) (l.filter wantB)) := by
    rw [switchKey_audience]
    exact sortMovies_ok_movie _ audVal _
      (fun m hm => getKey_audience_some m (hsome m (List.mem_of_mem_filter hm)))
  have hms : sortMovies (switchKey "audience_review") (removeIn l (l.filter wantB)) =
      .ok (sortD (fun a b => pyLt (audVal a) (audVal b)) (l.filter (fun x => !(wantB x)))) := by
    rw [switchKey_audience, removeIn_filter]
    exact sortMovies_ok_movie _ audVal _
      (fun m hm => getKey_audience_some m (hsome m (List.mem_of_mem_filter hm)))
  unfold sort_data
  simp only [hf, hfs, hms]

theorem sort_data_anticipation (l : List Movie) (hsome : ∀ m ∈ l, m.audience_review ≠ none) :
    sort_data l "audience_anticipation" =
      .ok (sortD (fun a b => pyLt (audVal a) (audVal b)) (l.filter (fun x => !(likedB x))) ++
        sortD (fun a b => pyLt (audVal a) (audVal b)) (l.filter likedB)) := by
  have hf : pickFiltered l "audience_anticipation" = .ok (l.filter likedB) := by
    rw [pickFiltered_anticipation]
    exact filterE_ok _ _ l (fun x hx => audienceHasLiked_ok x (hsome x hx))
  have hfs : sortMovies (switchKey "audience_anticipation") (l.filter likedB) =
      .ok (sortD (fun a b => pyLt (audVal a) (audVal b)) (l.filter likedB)) := by
    rw [switchKey_anticipation]
    exact sortMovies_ok_movie _ audVal _
      (fun m hm => getKey_audience_some m (hsome m (List.mem_of_mem_filter hm)))
  have hms : sortMovies (switchKey "audience_anticipation") (removeIn l (l.filter likedB)) =
      .ok (sortD (fun a b => pyLt (audVal a) (audVal b)) (l.filter (fun x => !(likedB x)))) := by
    rw [switchKey_anticipation, removeIn_filter]
    exact sortMovies_ok_movie _ audVal _
      (fun m hm => getKey_audience_some m (hsome m (List.mem_of_mem_filter hm)))
  unfold sort_data
  simp only [hf, hfs, hms]

theorem mergeListing_nodup : ∀ (s p : List Movie), (p.map Movie.name).Nodup →
    ((mergeListing p s).map Movie.name).Nodup := by
  intro s
  induction s with
  | nil => intro p h; exact h
  | cons m ms ih =>
    intro p h
    rw [show mergeListing p (m :: ms) =
      mergeListing (if ((p.map Movie.name).contains m.name) then p else p ++ [m]) ms from rfl]
    by_cases hc : ((p.map Movie.name).contains m.name) = true
    · rw [if_pos hc]
      exact ih p h
    · rw [if_neg hc]
      refine ih _ ?_
      rw [List.map_append]
      refine List.nodup_append.mpr ⟨h, List.nodup_singleton _, ?_⟩
      intro a ha ha2
      have has : a = m.name := by simpa using ha2
      rw [has] at ha
      exact hc (List.elem_iff.mpr ha)

/-- C1: for listings with unique names (as the extractor produces), the merge
keeps all primary records in their original order and appends exactly the
secondary records whose names are not among the primary names, in their own
order; for a title present in both listings the merged result holds exactly
one record with that name, the primary one (filtering the merge by that name
gives the same records as filtering the primary listing, and exactly one). -/
theorem c1_merge_spec (p s : List Movie)
    (hp : (p.map Movie.name).Nodup) (hs : (s.map Movie.name).Nodup) :
    mergeListing p s = p ++ s.filter (fun m => !((p.map Movie.name).contains m.name)) ∧
      ∀ t, t ∈ p.map Movie.name → t ∈ s.map Movie.name →
        (mergeListing p s).filter (fun m => m.name == t) =
            p.filter (fun m => m.name == t) ∧
          ((mergeListing p s).filter (fun m => m.name == t)).length = 1 := by
  have he := mergeListing_eq p s hs
  refine ⟨he, ?_⟩
  intro t htp hts
  have hdrop : ((s.filter (fun m => !((p.map Movie.name).contains m.name))).filter
      (fun m => m.name == t)) = [] := by
    rw [List.filter_eq_nil_iff]
    intro a ha hqa
    have hanot := (List.mem_filter.mp ha).2
    have haname : a.name = t := by simpa using hqa
    rw [Bool.not_eq_true'] at hanot
    exact (contains_eq_false_iff _ _).mp hanot (haname ▸ htp)
  have hfil : (mergeListing p s).filter (fun m => m.name == t) =
      p.filter (fun m => m.name == t) := by
    rw [he, List.filter_append, hdrop, List.append_nil]
  exact ⟨hfil, by rw [hfil]; exact filter_name_length t p hp htp⟩

/-- Witness for C1 at the end-to-end scenario of the spec: listings
[X, Y] and [Y, Z] merge to [X, Y, Z] with a single record named "Movie Y". -/
theorem c1_merge_spec_witness :
    mergeListing
          [⟨"Movie X".toList, .int 90, some (.int 80)⟩,
            ⟨"Movie Y".toList, .str "Coming soon".toList, none⟩]
          [⟨"Movie Y".toList, .str "Coming soon".toList, some (.int 60)⟩,
            ⟨"Movie Z".toList, .int 75, some (.int 70)⟩] =
        [⟨"Movie X".toList, .int 90, some (.int 80)⟩,
          ⟨"Movie Y".toList, .str "Coming soon".toList, none⟩] ++
          List.filter
            (fun m => !((([⟨"Movie X".toList, .int 90, some (.int 80)⟩,
              ⟨"Movie Y".toList, .str "Coming soon".toList, none⟩] :
                List Movie).map Movie.name).contains m.name))
            [⟨"Movie Y".toList, .str "Coming soon".toList, some (.int 60)⟩,
              ⟨"Movie Z".toList, .int 75, some (.int 70)⟩] ∧
      ((mergeListing
          [⟨"Movie X".toList, .int 90, some (.int 80)⟩,
            ⟨"Movie Y".toList, .str "Coming soon".toList, none⟩]
          [⟨"Movie Y".toList, .str "Coming soon".toList, some (.int 60)⟩,
            ⟨"Movie Z".toList, .int 75, some (.int 70)⟩]).filter
        (fun m => m.name == "Movie Y".toList)).length = 1 :=
  ⟨(c1_merge_spec _ _ (by decide) (by decide)).1,
    ((c1_merge_spec _ _ (by decide) (by decide)).2 "Movie Y".toList
      (by decide) (by decide)).2⟩

/-- C2: the extractor's output has pairwise-distinct names and lists them in
document order (its name sequence is a sublist of the node strings in order);
a listing that is one run of N+1 identical tags (same string, same nonempty
link, same score span) yields exactly the one record; and the
duplicate-link check is only against the immediately previous accepted node,
not global: a third tag reusing the first tag's link is still accepted. -/
theorem c2_extractor_spec :
    (∀ (stream : String → List (Option (List Char))) (tags : List Tag) (ms : List Movie),
        parse_selector stream tags = .ok ms →
          (ms.map Movie.name).Nodup ∧
            (ms.map Movie.name).Sublist (tags.filterMap Tag.string)) ∧
      (∀ (stream : String → List (Option (List Char))) (s : List Char) (h : String)
          (sp : List Char) (cs : PyVal) (av : Option PyVal) (n : Nat), h ≠ "" →
          parseCriticScore (pyStrip sp) = .ok cs →
          (parse_page (stream (HOMEPAGE ++ h))).1 = .ok av →
          parse_selector stream (List.replicate (n + 1) ⟨some s, h, some sp⟩) =
            .ok [⟨s, cs, av⟩]) ∧
      parse_selector (fun _ => [])
          [⟨some "A".toList, "/m/a", some "90%".toList⟩,
            ⟨some "B".toList, "/m/b", some "80%".toList⟩,
            ⟨some "C".toList, "/m/a", some "70%".toList⟩] =
        .ok [⟨"A".toList, .int 90, none⟩, ⟨"B".toList, .int 80, none⟩,
          ⟨"C".toList, .int 70, none⟩] := by
  refine ⟨?_, ?_, by decide⟩
  · intro stream tags ms h
    rcases psGo_names stream tags "" [] ms h (by simp) with ⟨h1, t, h2, h3⟩
    have h2s : ms.map Movie.name = t := by simpa using h2
    exact ⟨h1, by rw [h2s]; exact h3⟩
  · intro stream s h sp cs av n hne hcs hav
    exact parse_selector_replicate stream s h sp cs av n hne hcs hav

/-- Witness for C2: a run of three identical tags yields one record. -/
theorem c2_extractor_spec_witness :
    parse_selector (fun _ => [])
        (List.replicate (2 + 1) (⟨some "Dup".toList, "/m/dup", some "55%".toList⟩ : Tag)) =
      .ok [⟨"Dup".toList, .int 55, none⟩] :=
  c2_extractor_spec.2.1 (fun _ => []) "Dup".toList "/m/dup" "55%".toList (.int 55) none 2
    (by decide) (by decide) (by decide)

/-- C3 counterexample: the critic-score parse of the empty string raises
IndexError (`content["critic_score"][-1]` on an empty string), refuting
"for no input string does parsing raise an error (in particular, not for the
empty string)". -/
theorem c3_counterexample : parseCriticScore "".toList = .error .indexError := by decide

/-- C3 amended: a trailing-percent string whose front parses as an integer
yields that integer; a nonempty string not ending in `%` is preserved
unchanged; but the critic path raises IndexError on the empty string, and
both paths propagate the ValueError of `int` when the text before the `%`
(the trailing `%` for the critic path, the first `%` for the audience path)
is not an integer literal.  The audience path yields the integer before the
first `%`, and preserves any string without `%` unchanged — including the
empty string. -/
theorem c3_score_parsing_amended :
    (∀ (s : List Char) (n : Int), pyInt s = .ok n →
        parseCriticScore (s ++ ['%']) = .ok (.int n)) ∧
      (∀ (s : List Char) (e : PyErr), pyInt s = .error e →
        parseCriticScore (s ++ ['%']) = .error e) ∧
      (∀ s : List Char, s ≠ [] → s.getLast? ≠ some '%' →
        parseCriticScore s = .ok (.str s)) ∧
      parseCriticScore [] = .error .indexError ∧
      (∀ (s : List Char) (n : Int), '%' ∈ s →
        pyInt (s.takeWhile (fun c => c ≠ '%')) = .ok n →
        parseAudienceScore s = .ok (.int n)) ∧
      (∀ (s : List Char) (e : PyErr), '%' ∈ s →
        pyInt (s.takeWhile (fun c => c ≠ '%')) = .error e →
        parseAudienceScore s = .error e) ∧
      (∀ s : List Char, '%' ∉ s → parseAudienceScore s = .ok (.str s)) := by
  refine ⟨?_, ?_, ?_, by decide, ?_, ?_, ?_⟩
  · intro s n h
    unfold parseCriticScore
    simp only [List.getLast?_concat, List.dropLast_concat]
    rw [if_pos trivial, h]
    rfl
  · intro s e h
    unfold parseCriticScore
    simp only [List.getLast?_concat, List.dropLast_concat]
    rw [if_pos trivial, h]
    rfl
  · intro s hne hpc
    unfold parseCriticScore
    cases hl : s.getLast? with
    | none => exact absurd (List.getLast?_eq_none_iff.mp hl) hne
    | some c =>
      have hc : ¬(c = '%') := fun he => hpc (by rw [hl, he])
      simp only [hl]
      rw [if_neg hc]
  · intro s n hmem h
    unfold parseAudienceScore
    rw [if_pos (List.elem_iff.mpr hmem), h]
    rfl
  · intro s e hmem h
    unfold parseAudienceScore
    rw [if_pos (List.elem_iff.mpr hmem), h]
    rfl
  · intro s hnm
    unfold parseAudienceScore
    have hcc : ¬(s.contains '%' = true) := by
      intro hx
      rw [(contains_eq_false_iff s '%').mpr hnm] at hx
      cases hx
    rw [if_neg hcc]

/-- Witness for the amended C3 theorem at the spec's own test inputs, plus a
malformed audience percentage propagating ValueError. -/
theorem c3_score_parsing_amended_witness :
    parseCriticScore ("87".toList ++ ['%']) = .ok (.int 87) ∧
      parseCriticScore "Coming soon".toList = .ok (.str "Coming soon".toList) ∧
      parseAudienceScore "ab%".toList = .error .valueError ∧
      parseAudienceScore "want to see".toList = .ok (.str "want to see".toList) :=
  ⟨c3_score_parsing_amended.1 "87".toList 87 (by decide),
    c3_score_parsing_amended.2.2.1 "Coming soon".toList (by decide) (by decide),
    c3_score_parsing_amended.2.2.2.2.2.1 "ab%".toList .valueError (by decide) (by decide),
    c3_score_parsing_amended.2.2.2.2.2.2 "want to see".toList (by decide)⟩

/-- C4 counterexample: sorting by the audienceScore key, the record whose
audience field is the textual marker "liked it" — not a valid value of the
requested kind, so belonging to the remainder per the claim — is output
before the record carrying the valid numeric audience score 70, whereas the
claim requires the sorted valid partition to come first. -/
theorem c4_counterexample :
    sort_data
        [⟨"D1".toList, .int 90, some (.int 70)⟩,
          ⟨"D2".toList, .int 80, some (.str "liked it".toList)⟩] "audience_review" =
      .ok [⟨"D2".toList, .int 80, some (.str "liked it".toList)⟩,
        ⟨"D1".toList, .int 90, some (.int 70)⟩] ∧
      claimValidOfKind "audience_review" ⟨"D1".toList, .int 90, some (.int 70)⟩ = true ∧
      claimValidOfKind "audience_review"
        ⟨"D2".toList, .int 80, some (.str "liked it".toList)⟩ = false := by
  decide

/-- C4 amended: the claimed two-tier structure holds for the criticScore key:
`sort_data` splits the records into numeric-critic and textual-critic tiers,
each tier is a permutation of the corresponding filter sorted descending by
critic score, ties keep original relative order (equal-key filter preserved),
and the numeric tier precedes the textual remainder; the spec's concrete
stability scenario (two 90s and one missing critic score) holds.  For the
audience keys the partition is instead by "want"/"liked" marker (see C5). -/
theorem c4_sort_critic_amended :
    (∀ l : List Movie, ∃ A B,
      sort_data l "critic_score" = .ok (A ++ B) ∧
        List.Perm A (l.filter (fun x => !(criticTextB x))) ∧
        List.Perm B (l.filter criticTextB) ∧
        List.Pairwise (fun a b => pyLt a.critic_score b.critic_score = false) A ∧
        List.Pairwise (fun a b => pyLt a.critic_score b.critic_score = false) B ∧
        (∀ v, A.filter (fun m => !pyLt m.critic_score v && !pyLt v m.critic_score) =
          (l.filter (fun x => !(criticTextB x))).filter
            (fun m => !pyLt m.critic_score v && !pyLt v m.critic_score)) ∧
        (∀ v, B.filter (fun m => !pyLt m.critic_score v && !pyLt v m.critic_score) =
          (l.filter criticTextB).filter
            (fun m => !pyLt m.critic_score v && !pyLt v m.critic_score))) ∧
      sort_data
          [⟨"A".toList, .int 90, none⟩, ⟨"M".toList, .str "Coming soon".toList, none⟩,
            ⟨"B".toList, .int 90, none⟩] "critic_score" =
        .ok [⟨"A".toList, .int 90, none⟩, ⟨"B".toList, .int 90, none⟩,
          ⟨"M".toList, .str "Coming soon".toList, none⟩] := by
  refine ⟨?_, by decide⟩
  intro l
  refine ⟨sortD (fun a b => pyLt a.critic_score b.critic_score)
      (l.filter (fun x => !(criticTextB x))),
    sortD (fun a b => pyLt a.critic_score b.critic_score) (l.filter criticTextB),
    sort_data_critic l, sortD_perm _ _, sortD_perm _ _, ?_, ?_, ?_, ?_⟩
  · exact sortMovies_sorted "critic_score" Movie.critic_score _ _
      (fun m _ => getKey_critic m)
      (sortMovies_ok_movie "critic_score" Movie.critic_score _ (fun m _ => getKey_critic m))
  · exact sortMovies_sorted "critic_score" Movie.critic_score _ _
      (fun m _ => getKey_critic m)
      (sortMovies_ok_movie "critic_score" Movie.critic_score _ (fun m _ => getKey_critic m))
  · intro v
    exact sortMovies_stable "critic_score" Movie.critic_score _ _
      (fun m _ => getKey_critic m)
      (sortMovies_ok_movie "critic_score" Movie.critic_score _ (fun m _ => getKey_critic m)) v
  · intro v
    exact sortMovies_stable "critic_score" Movie.critic_score _ _
      (fun m _ => getKey_critic m)
      (sortMovies_ok_movie "critic_score" Movie.critic_score _ (fun m _ => getKey_critic m)) v

/-- C5 counterexample: sorting by the audienceScore key, the "liked it"
record does not fall into the remainder bucket after the numeric records as
the claim states: the code outputs it first (the filtered-out bucket for this
key holds only "want"-marked records, and text sorts above ints). -/
theorem c5_counterexample :
    sort_data
        [⟨"E1".toList, .int 85, some (.int 60)⟩,
          ⟨"E2".toList, .int 75, some (.str "liked it".toList)⟩] "audience_review" =
      .ok [⟨"E2".toList, .int 75, some (.str "liked it".toList)⟩,
        ⟨"E1".toList, .int 85, some (.int 60)⟩] ∧
      likedB ⟨"E2".toList, .int 75, some (.str "liked it".toList)⟩ = true ∧
      claimValidOfKind "audience_review" ⟨"E1".toList, .int 85, some (.int 60)⟩ = true := by
  decide

/-- C5 amended (for collections whose records all carry the audience key):
sorting by the audienceScore key moves exactly the "want"-marked records into
the trailing bucket — "liked"-marked records stay in the leading partition —
and sorting by the anticipation key moves exactly the "liked"-marked records
to the back; both partitions are sorted descending by the audience value
(text sorting above ints per the Python 2 order). -/
theorem c5_sort_audience_amended (l : List Movie)
    (hsome : ∀ m ∈ l, m.audience_review ≠ none) :
    (∃ A B, sort_data l "audience_review" = .ok (A ++ B) ∧
      List.Perm A (l.filter (fun x => !(wantB x))) ∧ List.Perm B (l.filter wantB) ∧
      List.Pairwise (fun a b => pyLt (audVal a) (audVal b) = false) A ∧
      List.Pairwise (fun a b => pyLt (audVal a) (audVal b) = false) B) ∧
    (∃ A B, sort_data l "audience_anticipation" = .ok (A ++ B) ∧
      List.Perm A (l.filter (fun x => !(likedB x))) ∧ List.Perm B (l.filter likedB) ∧
      List.Pairwise (fun a b => pyLt (audVal a) (audVal b) = false) A ∧
      List.Pairwise (fun a b => pyLt (audVal a) (audVal b) = false) B) := by
  constructor
  · refine ⟨sortD (fun a b => pyLt (audVal a) (audVal b)) (l.filter (fun x => !(wantB x))),
      sortD (fun a b => pyLt (audVal a) (audVal b)) (l.filter wantB),
      sort_data_audience l hsome, sortD_perm _ _, sortD_perm _ _, ?_, ?_⟩
    · exact sortMovies_sorted "audience_review" audVal _ _
        (fun m hm => getKey_audience_some m (hsome m (List.mem_of_mem_filter hm)))
        (sortMovies_ok_movie "audience_review" audVal _
          (fun m hm => getKey_audience_some m (hsome m (List.mem_of_mem_filter hm))))
    · exact sortMovies_sorted "audience_review" audVal _ _
        (fun m hm => getKey_audience_some m (hsome m (List.mem_of_mem_filter hm)))
        (sortMovies_ok_movie "audience_review" audVal _
          (fun m hm => getKey_audience_some m (hsome m (List.mem_of_mem_filter hm))))
  · refine ⟨sortD (fun a b => pyLt (audVal a) (audVal b)) (l.filter (fun x => !(likedB x))),
      sortD (fun a b => pyLt (audVal a) (audVal b)) (l.filter likedB),
      sort_data_anticipation l hsome, sortD_perm _ _, sortD_perm _ _, ?_, ?_⟩
    · exact sortMovies_sorted "audience_review" audVal _ _
        (fun m hm => getKey_audience_some m (hsome m (List.mem_of_mem_filter hm)))
        (sortMovies_ok_movie "audience_review" audVal _
          (fun m hm => getKey_audience_some m (hsome m (List.mem_of_mem_filter hm))))
    · exact sortMovies_sorted "audience_review" audVal _ _
        (fun m hm => getKey_audience_some m (hsome m (List.mem_of_mem_filter hm)))
        (sortMovies_ok_movie "audience_review" audVal _
          (fun m hm => getKey_audience_some m (hsome m (List.mem_of_mem_filter hm))))

/-- Witness for the amended C5 theorem on a two-record collection with one
numeric audience score and one "want to see" marker. -/
theorem c5_sort_audience_amended_witness :
    ∃ A B, sort_data
        [⟨"N".toList, .int 60, some (.int 40)⟩,
          ⟨"W".toList, .int 50, some (.str "want to see".toList)⟩] "audience_review" =
      .ok (A ++ B) ∧
      List.Perm A (([⟨"N".toList, .int 60, some (.int 40)⟩,
        ⟨"W".toList, .int 50, some (.str "want to see".toList)⟩] :
          List Movie).filter (fun x => !(wantB x))) ∧
      List.Perm B (([⟨"N".toList, .int 60, some (.int 40)⟩,
        ⟨"W".toList, .int 50, some (.str "want to see".toList)⟩] :
          List Movie).filter wantB) ∧
      List.Pairwise (fun a b => pyLt (audVal a) (audVal b) = false) A ∧
      List.Pairwise (fun a b => pyLt (audVal a) (audVal b) = false) B :=
  (c5_sort_audience_amended
      [⟨"N".toList, .int 60, some (.int 40)⟩,
        ⟨"W".toList, .int 50, some (.str "want to see".toList)⟩] (by decide)).1

/-- C6: a detail page with no matching chunk leaves the audience value absent
(here after consuming both chunks), and such a record survives the critic
sort; but sorting by either audience key raises `KeyError` at the filter
comprehension (lines 107/110 read `x["audience_review"]`), contradicting the
claim that sorting such a collection by any sort key completes without
error. -/
theorem c6_missing_audience_keyerror :
    parse_page [none, none] = (.ok none, 2) ∧
      sort_data [⟨"X".toList, .int 90, none⟩] "critic_score" =
        .ok [⟨"X".toList, .int 90, none⟩] ∧
      sort_data [⟨"X".toList, .int 90, none⟩] "audience_review" = .error .keyError ∧
      sort_data [⟨"X".toList, .int 90, none⟩] "audience_anticipation" =
        .error .keyError := by
  decide

/-- C8: the enricher reads the stream in order and stops at the first
matching chunk: with k non-matching chunks followed by a match, exactly k+1
chunks are read no matter what follows; with no matching chunk the whole
stream (k chunks) is read and the result is absent; in particular a match in
chunk 2 of 5 reads exactly 2 chunks. -/
theorem c8_early_termination :
    (∀ (k : Nat) (content : List Char) (rest : List (Option (List Char))),
        parse_page (List.replicate k none ++ some content :: rest) =
          ((parseAudienceScore content).map some, k + 1)) ∧
      (∀ k : Nat, parse_page (List.replicate k none) = (.ok none, k)) ∧
      parse_page [none, some "80%".toList, none, none, none] =
        (.ok (some (.int 80)), 2) := by
  refine ⟨?_, ?_, by decide⟩
  · intro k content rest
    induction k with
    | zero => rfl
    | succ j ih =>
      rw [List.replicate_succ]
      simp only [List.cons_append, parse_page, List.append_eq, ih]
  · intro k
    induction k with
    | zero => rfl
    | succ j ih =>
      rw [List.replicate_succ]
      simp only [parse_page, ih]

/-- C9: both extraction outputs have pairwise-distinct names, merging them
keeps names unique, and any successful sort of the merged collection — a pure
reordering — keeps them unique. -/
theorem c9_unique_names (stream : String → List (Option (List Char)))
    (t1 t2 : List Tag) (l1 l2 : List Movie)
    (h1 : parse_selector stream t1 = .ok l1) (h2 : parse_selector stream t2 = .ok l2) :
    (l1.map Movie.name).Nodup ∧ (l2.map Movie.name).Nodup ∧
      ((mergeListing l1 l2).map Movie.name).Nodup ∧
      ∀ (key : String) (r : List Movie),
        sort_data (mergeListing l1 l2) key = .ok r → (r.map Movie.name).Nodup := by
  have hn1 : (l1.map Movie.name).Nodup := (psGo_names stream t1 "" [] l1 h1 (by simp)).1
  have hn2 : (l2.map Movie.name).Nodup := (psGo_names stream t2 "" [] l2 h2 (by simp)).1
  have hmerge := mergeListing_nodup l2 l1 hn1
  refine ⟨hn1, hn2, hmerge, ?_⟩
  intro key r hr
  have hndr : (mergeListing l1 l2).Nodup := List.Nodup.of_map Movie.name hmerge
  have hperm := sort_data_perm (mergeListing l1 l2) key r hndr hr
  exact ((hperm.map Movie.name).nodup_iff).mpr hmerge

/-- Witness for C9 on two one-tag listings with distinct titles. -/
theorem c9_unique_names_witness :
    ((mergeListing [⟨"X".toList, .int 90, none⟩]
      [⟨"Y".toList, .int 80, none⟩]).map Movie.name).Nodup :=
  (c9_unique_names (fun _ => []) [⟨some "X".toList, "/m/x", some "90%".toList⟩]
      [⟨some "Y".toList, "/m/y", some "80%".toList⟩]
      [⟨"X".toList, .int 90, none⟩] [⟨"Y".toList, .int 80, none⟩]
      (by decide) (by decide)).2.2.1

/-- C10: for every name and limit L ≥ 3, `shorten` keeps a name of length at
most L unchanged; a longer name becomes its first L-3 characters followed by
"...", of length exactly L; in both cases the result length is at most L. -/
theorem c10_shorten_spec (name : List Char) (L : Int) (hL : 3 ≤ L) :
    ((name.length : Int) ≤ L → shorten name L = name) ∧
      (L < (name.length : Int) →
        shorten name L = name.take (L - 3).toNat ++ "...".toList ∧
          ((shorten name L).length : Int) = L) ∧
      ((shorten name L).length : Int) ≤ L := by
  have hlen : ¬((name.length : Int) ≤ L) →
      shorten name L = name.take (L - 3).toNat ++ "...".toList ∧
        ((shorten name L).length : Int) = L := by
    intro hnle
    unfold shorten pySliceTo
    rw [if_neg hnle, if_neg (show ¬(L - 3 < 0) by omega)]
    refine ⟨rfl, ?_⟩
    rw [List.length_append, List.length_take]
    have h1 : (L - 3).toNat ≤ name.length := by omega
    rw [min_eq_left h1]
    have h3 : ("...".toList).length = 3 := by decide
    rw [h3]
    omega
  refine ⟨?_, ?_, ?_⟩
  · intro hle
    unfold shorten
    rw [if_pos hle]
  · intro hlt
    exact hlen (by omega)
  · by_cases hle : (name.length : Int) ≤ L
    · unfold shorten
      rw [if_pos hle]
      exact hle
    · rw [(hlen hle).2]

/-- Witness for C10: an eight-character name shortened to 5. -/
theorem c10_shorten_spec_witness :
    ((shorten "abcdefgh".toList 5).length : Int) ≤ 5 :=
  (c10_shorten_spec "abcdefgh".toList 5 (by decide)).2.2
